import Mathlib

/-!
# kbfsfuse: the mount root (`Root`) of the KBFS FUSE adapter

A shallow embedding of `src/kbfsfuse/fs.go`:

* `Root.getMD` and `Root.Lookup` as state-passing functions over the mount's
  state (the `r.folders` map, the objects allocated for `*Folder` and `*Dir`,
  the state of the storage backend and the record of calls made to it);
* `Root.getDirent` / `Root.ReadDirAll` as a labelled transition system over
  the goroutines, channels and context of one `ReadDirAll` call.

Everything that lives in `libkbfs` (handles, the KBFSOps and Notifier
interfaces) is an external collaborator and enters through `Config`.
-/

namespace Kbfsfuse

/-! ## External types (package `libkbfs`, `fuse`) -/

/-- The identifier `libkbfs.TlfID` of a top-level folder. -/
abbrev TlfID := Nat

/-- Modelled from the spec: `libkbfs.NullTlfID`, the null folder id that
denotes "not yet resolved" (only the constant's declaration is missing). -/
def NullTlfID : TlfID := 0

/-- The name `libkbfs.BranchName` of a branch. -/
abbrev BranchName := String

/-- Modelled from the spec: `libkbfs.MasterBranch`, the default (canonical,
"master") line of history (only the constant's declaration is missing). -/
def MasterBranch : BranchName := "master"

/-- The pair `libkbfs.FolderBranch`. -/
structure FolderBranch where
  Tlf : TlfID
  Branch : BranchName
deriving DecidableEq, Repr

/-- The identity `libkbfs.NodeID` of a backend object. -/
abbrev NodeID := Nat

/-- A non-nil `libkbfs.Node`, as far as this package observes it: the results
of its methods `GetID()` and `GetFolderBranch()`. A nil `libkbfs.Node` is
`none : Option Node`. -/
structure Node where
  GetID : NodeID
  GetFolderBranch : FolderBranch
deriving DecidableEq, Repr

/-- Go `error` values seen by this package. -/
inductive Error where
  /-- a value of type `libkbfs.ReadAccessError` -/
  | ReadAccessError (msg : String)
  /-- the value `fuse.ENOENT` -/
  | ENOENT
  /-- the value `context.Canceled` -/
  | Canceled
  /-- the value `context.DeadlineExceeded` -/
  | DeadlineExceeded
  /-- any other error value -/
  | other (code : Nat)
deriving DecidableEq, Repr

/-- The type assertion `_, ok := err.(libkbfs.ReadAccessError)`. -/
def Error.isReadAccessError : Error → Bool
  | .ReadAccessError _ => true
  | _ => false

/-- A `fuse.DirentType`; only `DT_Dir` is produced here. -/
inductive DirentType where
  | DT_Unknown
  | DT_Dir
deriving DecidableEq, Repr

/-- The record `fuse.Dirent` (the fields this package sets). -/
structure Dirent where
  Typ : DirentType
  Name : String
deriving DecidableEq, Repr

/-! ## Objects of package `kbfsfuse` -/

/-- A `*Dir`: the index of the object among the allocated `Dir`s. -/
abbrev DirPtr := Nat

/-- A `*Folder`: the index of the object among the allocated `Folder`s. -/
abbrev FolderPtr := Nat

/-- The struct `Folder` (the `fs` back-pointer is the single mount and is left
out). `nodes` is the Go map `map[libkbfs.NodeID]fs.Node`; the only values
stored in it by this file are `*Dir`. -/
structure Folder (H : Type) where
  id : TlfID
  dh : H
  nodes : NodeID → Option DirPtr

/-- Modelled from the spec: the struct `Dir` (declared in a file that is not
under src/), the "kernel-facing object backed by a BackendObject" with a
"backend object reference, owning Folder reference, optional has public
subtree flag". -/
structure Dir where
  folder : FolderPtr
  node : Option Node
  hasPublic : Bool
deriving DecidableEq, Repr

/-- Modelled from the spec: the constructor `newDir(folder, node)` (declared
in a file that is not under src/), which "wraps the result": a `Dir` that
refers to the folder and the node, with the zero value for the flag. -/
def newDir (folder : FolderPtr) (node : Option Node) : Dir :=
  { folder := folder, node := node, hasPublic := false }

/-- What `Root.Lookup` returns as its `fs.Node`: a `*Dir` or an
`&Alias{canon: canon}`. -/
inductive FsNode where
  | dir (p : DirPtr)
  | alias (canon : String)
deriving DecidableEq, Repr

/-- A call made to the storage backend (`KBFSOps`) or to the `Notifier`. -/
inductive Call (H : Type) where
  | GetOrCreateRootNodeForHandle (dh : H) (branch : BranchName)
  | RegisterForChanges (folderBranches : List FolderBranch) (obs : FolderPtr)

/-- The external collaborators reached through `r.fs.config`. `H` is the type
`*libkbfs.TlfHandle`, `B` the state of the backend (KBFSOps and Notifier).
Go results `(value, err)` with `err != nil` are `.error err`. -/
structure Config (H B : Type) where
  /-- The function `libkbfs.ParseTlfHandle(ctx, config, name)`. -/
  ParseTlfHandle : String → Except Error H
  /-- The method `dh.IsPublic()`. -/
  IsPublic : H → Bool
  /-- The method `dh.HasPublic()`. -/
  HasPublic : H → Bool
  /-- The method `dh.ToString(config)`. -/
  ToString : H → String
  /-- The call `KBFSOps().GetOrCreateRootNodeForHandle(ctx, dh, branch)`: the root
  node and the error. -/
  GetOrCreateRootNodeForHandle : B → H → BranchName → Except Error (Option Node) × B
  /-- The call `Notifier().RegisterForChanges(folderBranches, obs)`. -/
  RegisterForChanges : B → List FolderBranch → FolderPtr → Option Error × B
  /-- The call `KBFSOps().GetRootNode(ctx, folderBranch)`: the handle and the error. -/
  GetRootNode : B → FolderBranch → Except Error H × B
  /-- The call `KBFSOps().GetFavDirs(ctx)`. -/
  GetFavDirs : B → Except Error (List TlfID) × B

/-- The state a `Root` works on: its map `r.folders`, the `Folder` and `Dir`
objects allocated so far, the backend, and the calls made to the backend. -/
structure Root (H B : Type) where
  /-- the Go map `r.folders : map[string]*Dir` -/
  folders : String → Option DirPtr
  folderObjs : List (Folder H)
  dirObjs : List Dir
  backend : B
  calls : List (Call H)

/-- The method `FS.Root`: a `Root` with the empty map `make(map[string]*Dir)`. -/
def FS.Root {H B : Type} (b : B) : Root H B :=
  { folders := fun _ => none, folderObjs := [], dirObjs := [], backend := b, calls := [] }

/-- The call `r.fs.config.KBFSOps().GetOrCreateRootNodeForHandle(ctx, dh, branch)`:
the backend moves on and the call is recorded. -/
def Root.callGetOrCreateRootNodeForHandle {H B : Type} (cfg : Config H B) (r : Root H B)
    (dh : H) (branch : BranchName) : Except Error (Option Node) × Root H B :=
  ((cfg.GetOrCreateRootNodeForHandle r.backend dh branch).1,
    { r with backend := (cfg.GetOrCreateRootNodeForHandle r.backend dh branch).2,
             calls := r.calls ++ [Call.GetOrCreateRootNodeForHandle dh branch] })

/-- The call `r.fs.config.Notifier().RegisterForChanges(folderBranches, folder)`:
the backend moves on and the call is recorded. -/
def Root.callRegisterForChanges {H B : Type} (cfg : Config H B) (r : Root H B)
    (folderBranches : List FolderBranch) (folder : FolderPtr) : Option Error × Root H B :=
  ((cfg.RegisterForChanges r.backend folderBranches folder).1,
    { r with backend := (cfg.RegisterForChanges r.backend folderBranches folder).2,
             calls := r.calls ++ [Call.RegisterForChanges folderBranches folder] })

/-- The method `Root.getMD`: a wrapper over `GetOrCreateRootNodeForHandle` that gives
`(nil, nil)` when read access is denied to a folder that has a public
subdirectory. -/
def Root.getMD {H B : Type} (cfg : Config H B) (r : Root H B) (dh : H) :
    Except Error (Option Node) × Root H B :=
  match Root.callGetOrCreateRootNodeForHandle cfg r dh MasterBranch with
  | (.error err, r1) =>
    if err.isReadAccessError && cfg.HasPublic dh then
      (.ok none, r1)
    else
      (.error err, r1)
  | (.ok rootNode, r1) => (.ok rootNode, r1)

/-- The `FolderBranch` computed in `Root.Lookup` (lines 142-148) from what
`getMD` returned: the null folder on the master branch, replaced by the root
node's own when there is a root node. -/
def folderBranchOf (rootNode : Option Node) : FolderBranch :=
  match rootNode with
  | some n => n.GetFolderBranch
  | none => { Tlf := NullTlfID, Branch := MasterBranch }

/-- The allocation `&Folder{...}`: the new object and its address. -/
def Root.allocFolder {H B : Type} (r : Root H B) (f : Folder H) : FolderPtr × Root H B :=
  (r.folderObjs.length, { r with folderObjs := r.folderObjs ++ [f] })

/-- The allocation of a `Dir`: the new object and its address. -/
def Root.allocDir {H B : Type} (r : Root H B) (d : Dir) : DirPtr × Root H B :=
  (r.dirObjs.length, { r with dirObjs := r.dirObjs ++ [d] })

/-- The assignment `folder.nodes[id] = child` on the `Folder` object at `folder`. -/
def Root.setNode {H B : Type} (r : Root H B) (folder : FolderPtr) (id : NodeID)
    (child : DirPtr) : Root H B :=
  { r with
    folderObjs := r.folderObjs.modify
      (fun f => { f with nodes := Function.update f.nodes id (some child) }) folder }

/-- The assignment `child.hasPublic = true` on the `Dir` object at `child`. -/
def Root.setHasPublic {H B : Type} (r : Root H B) (child : DirPtr) : Root H B :=
  { r with
    dirObjs := r.dirObjs.modify (fun d => { d with hasPublic := true }) child }

/-- The assignment `r.folders[name] = child`. -/
def Root.setFolder {H B : Type} (r : Root H B) (name : String) (child : DirPtr) : Root H B :=
  { r with folders := Function.update r.folders name (some child) }

/-- The method `Root.Lookup`, for a request with `req.Name = name`. -/
def Root.Lookup {H B : Type} (cfg : Config H B) (r : Root H B) (name : String) :
    Except Error FsNode × Root H B :=
  match r.folders name with
  | some child => (.ok (.dir child), r)
  | none =>
    match cfg.ParseTlfHandle name with
    | .error err => (.error err, r)
    | .ok dh =>
      if cfg.IsPublic dh then
        (.error .ENOENT, r)
      else if cfg.ToString dh ≠ name then
        (.ok (.alias (cfg.ToString dh)), r)
      else
        match Root.getMD cfg r dh with
        | (.error err, r1) => (.error err, r1)
        | (.ok rootNode, r1) =>
          let folderBranch := folderBranchOf rootNode
          match r1.allocFolder { id := folderBranch.Tlf, dh := dh, nodes := fun _ => none } with
          | (folder, r2) =>
            match Root.callRegisterForChanges cfg r2 [folderBranch] folder with
            | (some err, r3) => (.error err, r3)
            | (none, r3) =>
              match r3.allocDir (newDir folder rootNode) with
              | (child, r4) =>
                let r5 : Root H B :=
                  match rootNode with
                  | some n => r4.setNode folder n.GetID child
                  | none => r4
                let r6 : Root H B :=
                  if cfg.HasPublic dh then r5.setHasPublic child else r5
                (.ok (.dir child), r6.setFolder name child)

/-- A sequence of `Lookup` calls on one `Root`, one after the other. -/
def Root.Lookups {H B : Type} (cfg : Config H B) (r : Root H B) (names : List String) :
    Root H B :=
  names.foldl (fun r name => (Root.Lookup cfg r name).2) r

/-! ## `Root.ReadDirAll`: goroutines, channels and the context

One call of `ReadDirAll` runs the collector (the calling goroutine, lines
246-259), the feeder (lines 235-244) and `workers` goroutines that run
`getDirent` (lines 224-232). `work` and `results` are unbuffered channels, so
a send and its receive are one step; `errCh` has room for one error. -/

/-- The constant `workers` of `ReadDirAll`. -/
def workers : Nat := 10

/-- A worker goroutine, by the statement it stands at. -/
inductive Worker where
  /-- in `getDirent`, at the `select` on `work` and `ctx.Done()` -/
  | selecting
  /-- received `tlfID` from `work`; the call of `GetRootNode` is next -/
  | received (tlfID : TlfID)
  /-- at the send `results <- fuse.Dirent{...}` -/
  | sending (d : Dirent)
  /-- after `getDirent` returned `err != nil`; the `select` on `errCh` is next -/
  | failed (err : Error)
  /-- the goroutine has ended (`wg.Done()` has run) -/
  | done
deriving DecidableEq, Repr

/-- The feeder goroutine, by the statement it stands at. -/
inductive Feeder where
  /-- in the loop over `favs`: `rest` is still to be sent on `work`; with
  `rest` empty `close(work)` is next -/
  | feeding (rest : List TlfID)
  /-- after `close(work)`; in `wg.Wait()` -/
  | waiting
  /-- after `close(results)`; the goroutine has ended -/
  | finished
deriving DecidableEq, Repr

/-- The calling goroutine: in its loop with the entries appended to `res` so
far, or returned with the two results of `ReadDirAll`. -/
inductive Collector where
  | collecting (res : List Dirent)
  | returned (res : List Dirent) (err : Option Error)
deriving DecidableEq, Repr

/-- The state of one call of `ReadDirAll`. -/
structure ReadDir (B : Type) where
  backend : B
  feeder : Feeder
  pool : List Worker
  /-- the buffered channel `errCh` (capacity 1) -/
  errCh : Option Error
  /-- the value of `ctx.Err()` for the context made by `context.WithCancel`: `none` while
  `ctx.Done()` is open -/
  ctxErr : Option Error
  main : Collector
deriving DecidableEq, Repr

/-- The steps of the goroutines and of the environment. -/
inductive Action where
  /-- the feeder sends the next id on `work` and worker `i` receives it -/
  | recvWork (i : Nat)
  /-- worker `i` finds `work` closed: `getDirent` returns nil, the goroutine ends -/
  | workClosed (i : Nat)
  /-- worker `i` takes the case `<-ctx.Done()`: `getDirent` returns `ctx.Err()` -/
  | ctxDone (i : Nat)
  /-- worker `i` calls `GetRootNode` -/
  | getRootNode (i : Nat)
  /-- worker `i` sends its entry on `results` and the collector appends it -/
  | sendResult (i : Nat)
  /-- worker `i` offers its error to `errCh` without blocking; the goroutine ends -/
  | reportErr (i : Nat)
  /-- the feeder runs `close(work)` -/
  | closeWork
  /-- all workers having ended, `wg.Wait()` returns and the feeder runs `close(results)` -/
  | closeResults
  /-- the collector finds `results` closed and returns `res, nil` -/
  | recvClosed
  /-- the collector receives from `errCh` and returns `nil, err` -/
  | recvErr
  /-- the context of the caller is cancelled or times out -/
  | parentDone (err : Error)
deriving DecidableEq, Repr

/-- Whether the step is the cancellation of the caller's context. -/
def Action.isParentDone : Action → Bool
  | .parentDone _ => true
  | _ => false

/-- The deferred `cancel()`: the context is done from then on. -/
def cancel (ctxErr : Option Error) : Option Error :=
  match ctxErr with
  | none => some .Canceled
  | some err => some err

/-- The non-blocking send `select { case errCh <- err: default: }`. -/
def offer (errCh : Option Error) (err : Error) : Option Error :=
  match errCh with
  | none => some err
  | some e => some e

/-- The method `Root.ReadDirAll` up to the start of its goroutines: `GetFavDirs`, and on
success the channels, the workers, the feeder and the collector's loop. When
`GetFavDirs` fails the call has returned and no goroutine exists. -/
def Root.ReadDirAll {B H : Type} (cfg : Config H B) (b : B) : ReadDir B :=
  match cfg.GetFavDirs b with
  | (.error err, b1) =>
    { backend := b1, feeder := .finished, pool := [], errCh := none, ctxErr := none,
      main := .returned [] (some err) }
  | (.ok favs, b1) =>
    { backend := b1, feeder := .feeding favs, pool := List.replicate workers .selecting,
      errCh := none, ctxErr := none, main := .collecting [] }

/-- One step of a call of `ReadDirAll`; `none` when the step is not enabled. -/
def ReadDir.step {B H : Type} (cfg : Config H B) (s : ReadDir B) : Action → Option (ReadDir B)
  | .recvWork i =>
    match s.feeder, s.pool[i]? with
    | .feeding (tlfID :: rest), some .selecting =>
      some { s with feeder := .feeding rest, pool := s.pool.set i (.received tlfID) }
    | _, _ => none
  | .workClosed i =>
    match s.feeder, s.pool[i]? with
    | .feeding _, _ => none
    | _, some .selecting => some { s with pool := s.pool.set i .done }
    | _, _ => none
  | .ctxDone i =>
    match s.ctxErr, s.pool[i]? with
    | some err, some .selecting => some { s with pool := s.pool.set i (.failed err) }
    | _, _ => none
  | .getRootNode i =>
    match s.pool[i]? with
    | some (.received tlfID) =>
      match cfg.GetRootNode s.backend { Tlf := tlfID, Branch := MasterBranch } with
      | (.error err, b) => some { s with backend := b, pool := s.pool.set i (.failed err) }
      | (.ok dh, b) =>
        some { s with backend := b,
                      pool := s.pool.set i (.sending { Typ := .DT_Dir, Name := cfg.ToString dh }) }
    | _ => none
  | .sendResult i =>
    match s.main, s.pool[i]? with
    | .collecting res, some (.sending d) =>
      some { s with main := .collecting (res ++ [d]), pool := s.pool.set i .selecting }
    | _, _ => none
  | .reportErr i =>
    match s.pool[i]? with
    | some (.failed err) =>
      some { s with errCh := offer s.errCh err, pool := s.pool.set i .done }
    | _ => none
  | .closeWork =>
    match s.feeder with
    | .feeding [] => some { s with feeder := .waiting }
    | _ => none
  | .closeResults =>
    match s.feeder with
    | .waiting => if s.pool.all (fun w => w == .done) then some { s with feeder := .finished } else none
    | _ => none
  | .recvClosed =>
    match s.main, s.feeder with
    | .collecting res, .finished =>
      some { s with main := .returned res none, ctxErr := cancel s.ctxErr }
    | _, _ => none
  | .recvErr =>
    match s.main, s.errCh with
    | .collecting _, some err =>
      some { s with main := .returned [] (some err), errCh := none, ctxErr := cancel s.ctxErr }
    | _, _ => none
  | .parentDone err =>
    match s.ctxErr with
    | none => some { s with ctxErr := some err }
    | some _ => none

/-- A schedule: the steps taken one after the other; `none` when one of them
is not enabled. -/
def ReadDir.run {B H : Type} (cfg : Config H B) (s : ReadDir B) : List Action → Option (ReadDir B)
  | [] => some s
  | a :: rest =>
    match s.step cfg a with
    | some s1 => s1.run cfg rest
    | none => none

/-- What `ReadDirAll` has returned, if it has. -/
def ReadDir.result {B : Type} (s : ReadDir B) : Option (List Dirent × Option Error) :=
  match s.main with
  | .collecting _ => none
  | .returned res err => some (res, err)

/-! ## States reached by `Root.Lookup` -/

section LookupStates

variable {H B : Type}

/-- The state in which a resolution is left when `RegisterForChanges` fails. -/
def Root.afterRegister (cfg : Config H B) (r1 : Root H B) (dh : H)
    (rootNode : Option Node) : Root H B :=
  { r1 with
    folderObjs := r1.folderObjs ++
      [{ id := (folderBranchOf rootNode).Tlf, dh := dh, nodes := fun _ => none }],
    backend := (cfg.RegisterForChanges r1.backend [folderBranchOf rootNode]
      r1.folderObjs.length).2,
    calls := r1.calls ++
      [Call.RegisterForChanges [folderBranchOf rootNode] r1.folderObjs.length] }

/-- The `Folder` object a fresh resolution leaves behind. -/
def freshFolder (dh : H) (rootNode : Option Node) (child : DirPtr) : Folder H :=
  { id := (folderBranchOf rootNode).Tlf, dh := dh,
    nodes := match rootNode with
      | some n => Function.update (fun _ => none) n.GetID (some child)
      | none => fun _ => none }

/-- The state after a fresh resolution, from the state `r1` after `getMD`. -/
def Root.afterFresh (cfg : Config H B) (r1 : Root H B) (name : String) (dh : H)
    (rootNode : Option Node) : Root H B :=
  { folders := Function.update r1.folders name (some r1.dirObjs.length),
    folderObjs := r1.folderObjs ++ [freshFolder dh rootNode r1.dirObjs.length],
    dirObjs := r1.dirObjs ++
      [{ folder := r1.folderObjs.length, node := rootNode, hasPublic := cfg.HasPublic dh }],
    backend := (cfg.RegisterForChanges r1.backend [folderBranchOf rootNode]
      r1.folderObjs.length).2,
    calls := r1.calls ++
      [Call.RegisterForChanges [folderBranchOf rootNode] r1.folderObjs.length] }

/-- The paths through `Root.Lookup`, each with its result and final state. -/
inductive LookupPath (cfg : Config H B) (r : Root H B) (name : String) :
    Except Error FsNode × Root H B → Prop where
  | hit (p : DirPtr) (hf : r.folders name = some p) :
      LookupPath cfg r name (.ok (.dir p), r)
  | parseError (err : Error) (hf : r.folders name = none)
      (hp : cfg.ParseTlfHandle name = .error err) :
      LookupPath cfg r name (.error err, r)
  | isPublic (dh : H) (hf : r.folders name = none) (hp : cfg.ParseTlfHandle name = .ok dh)
      (hpub : cfg.IsPublic dh = true) :
      LookupPath cfg r name (.error .ENOENT, r)
  | redirect (dh : H) (hf : r.folders name = none) (hp : cfg.ParseTlfHandle name = .ok dh)
      (hpub : cfg.IsPublic dh = false) (hcanon : cfg.ToString dh ≠ name) :
      LookupPath cfg r name (.ok (.alias (cfg.ToString dh)), r)
  | getMDError (dh : H) (err : Error) (r1 : Root H B) (hf : r.folders name = none)
      (hp : cfg.ParseTlfHandle name = .ok dh) (hpub : cfg.IsPublic dh = false)
      (hcanon : cfg.ToString dh = name) (hmd : Root.getMD cfg r dh = (.error err, r1)) :
      LookupPath cfg r name (.error err, r1)
  | registerError (dh : H) (rootNode : Option Node) (err : Error) (r1 : Root H B)
      (hf : r.folders name = none) (hp : cfg.ParseTlfHandle name = .ok dh)
      (hpub : cfg.IsPublic dh = false) (hcanon : cfg.ToString dh = name)
      (hmd : Root.getMD cfg r dh = (.ok rootNode, r1))
      (hreg : (cfg.RegisterForChanges r1.backend [folderBranchOf rootNode]
        r1.folderObjs.length).1 = some err) :
      LookupPath cfg r name (.error err, Root.afterRegister cfg r1 dh rootNode)
  | fresh (dh : H) (rootNode : Option Node) (r1 : Root H B)
      (hf : r.folders name = none) (hp : cfg.ParseTlfHandle name = .ok dh)
      (hpub : cfg.IsPublic dh = false) (hcanon : cfg.ToString dh = name)
      (hmd : Root.getMD cfg r dh = (.ok rootNode, r1))
      (hreg : (cfg.RegisterForChanges r1.backend [folderBranchOf rootNode]
        r1.folderObjs.length).1 = none) :
      LookupPath cfg r name
        (.ok (.dir r1.dirObjs.length), Root.afterFresh cfg r1 name dh rootNode)

/-- The property of a key of `r.folders`: it parses, to a handle that is not
public and whose canonical string is the key. -/
def CanonicalKey (cfg : Config H B) (k : String) : Prop :=
  ∃ dh, cfg.ParseTlfHandle k = .ok dh ∧ cfg.IsPublic dh = false ∧ cfg.ToString dh = k

end LookupStates

/-! ## Measures and invariants of a `ReadDirAll` call -/

/-- The id a worker holds between its receive and its `GetRootNode` call. -/
def Worker.ids : Worker → List TlfID
  | .received tlfID => [tlfID]
  | _ => []

/-- The entry a worker is about to send on `results`. -/
def Worker.out : Worker → List Dirent
  | .sending d => [d]
  | _ => []

/-- A bound on the steps a worker takes before it needs new work. -/
def Worker.weight : Worker → Nat
  | .selecting => 2
  | .received _ => 4
  | .sending _ => 3
  | .failed _ => 1
  | .done => 0

/-- The ids the feeder has still to send. -/
def Feeder.rest : Feeder → List TlfID
  | .feeding rest => rest
  | _ => []

/-- A bound on the steps the feeder and the ids it still holds give rise to. -/
def Feeder.weight : Feeder → Nat
  | .feeding rest => 3 * rest.length + 2
  | .waiting => 1
  | .finished => 0

/-- The collector has one step left: its return. -/
def Collector.weight : Collector → Nat
  | .collecting _ => 1
  | .returned _ _ => 0

/-- A bound on the steps, other than the caller's cancellation, that a call
can still take. -/
def ReadDir.weight {B : Type} (s : ReadDir B) : Nat :=
  s.feeder.weight + (s.pool.map Worker.weight).sum + s.main.weight

/-- The entry `getDirent` makes for a folder whose canonical name is `cname id`. -/
def direntOf (cname : TlfID → String) (id : TlfID) : Dirent :=
  { Typ := .DT_Dir, Name := cname id }

/-- The steps of `ReadDir.step` as a relation, with the pool split at the
worker that moves. -/
inductive Step {B H : Type} (cfg : Config H B) : ReadDir B → Action → ReadDir B → Prop where
  | recvWork (s : ReadDir B) (i : Nat) (l1 l2 : List Worker) (tlfID : TlfID)
      (rest : List TlfID) (hf : s.feeder = .feeding (tlfID :: rest))
      (hp : s.pool = l1 ++ .selecting :: l2) :
      Step cfg s (.recvWork i)
        { s with feeder := .feeding rest, pool := l1 ++ .received tlfID :: l2 }
  | workClosed (s : ReadDir B) (i : Nat) (l1 l2 : List Worker)
      (hf : s.feeder = .waiting ∨ s.feeder = .finished)
      (hp : s.pool = l1 ++ .selecting :: l2) :
      Step cfg s (.workClosed i) { s with pool := l1 ++ .done :: l2 }
  | ctxDone (s : ReadDir B) (i : Nat) (l1 l2 : List Worker) (err : Error)
      (hc : s.ctxErr = some err) (hp : s.pool = l1 ++ .selecting :: l2) :
      Step cfg s (.ctxDone i) { s with pool := l1 ++ .failed err :: l2 }
  | getRootNodeError (s : ReadDir B) (i : Nat) (l1 l2 : List Worker) (tlfID : TlfID)
      (err : Error) (b : B) (hp : s.pool = l1 ++ .received tlfID :: l2)
      (hg : cfg.GetRootNode s.backend { Tlf := tlfID, Branch := MasterBranch } = (.error err, b)) :
      Step cfg s (.getRootNode i) { s with backend := b, pool := l1 ++ .failed err :: l2 }
  | getRootNodeOk (s : ReadDir B) (i : Nat) (l1 l2 : List Worker) (tlfID : TlfID)
      (dh : H) (b : B) (hp : s.pool = l1 ++ .received tlfID :: l2)
      (hg : cfg.GetRootNode s.backend { Tlf := tlfID, Branch := MasterBranch } = (.ok dh, b)) :
      Step cfg s (.getRootNode i)
        { s with backend := b,
                 pool := l1 ++ .sending { Typ := .DT_Dir, Name := cfg.ToString dh } :: l2 }
  | sendResult (s : ReadDir B) (i : Nat) (l1 l2 : List Worker) (res : List Dirent)
      (d : Dirent) (hm : s.main = .collecting res) (hp : s.pool = l1 ++ .sending d :: l2) :
      Step cfg s (.sendResult i)
        { s with main := .collecting (res ++ [d]), pool := l1 ++ .selecting :: l2 }
  | reportErr (s : ReadDir B) (i : Nat) (l1 l2 : List Worker) (err : Error)
      (hp : s.pool = l1 ++ .failed err :: l2) :
      Step cfg s (.reportErr i) { s with errCh := offer s.errCh err, pool := l1 ++ .done :: l2 }
  | closeWork (s : ReadDir B) (hf : s.feeder = .feeding []) :
      Step cfg s .closeWork { s with feeder := .waiting }
  | closeResults (s : ReadDir B) (hf : s.feeder = .waiting)
      (hall : ∀ w ∈ s.pool, w = .done) :
      Step cfg s .closeResults { s with feeder := .finished }
  | recvClosed (s : ReadDir B) (res : List Dirent) (hm : s.main = .collecting res)
      (hf : s.feeder = .finished) :
      Step cfg s .recvClosed { s with main := .returned res none, ctxErr := cancel s.ctxErr }
  | recvErr (s : ReadDir B) (res : List Dirent) (err : Error) (hm : s.main = .collecting res)
      (he : s.errCh = some err) :
      Step cfg s .recvErr
        { s with main := .returned [] (some err), errCh := none, ctxErr := cancel s.ctxErr }
  | parentDone (s : ReadDir B) (err : Error) (hc : s.ctxErr = none) :
      Step cfg s (.parentDone err) { s with ctxErr := some err }

/-- The invariant of a call in which every favorite resolves and the caller's
context stays open: while the collector is in its loop, no error is around,
the context is open, every id still to be served is a favorite, the entries
collected, the entries in the workers' hands and the entries of the ids still
to be served make up the entries of the favorites, `results` is closed only
after every worker has ended, and a worker has ended only after `work` was
closed. Once the collector has returned, it has returned those entries. -/
def Good {B : Type} (F : List TlfID) (cname : TlfID → String) (s : ReadDir B) : Prop :=
  match s.main with
  | .collecting res =>
    s.errCh = none ∧ s.ctxErr = none ∧ s.pool.length = workers ∧
    (∀ w ∈ s.pool, ∀ err, w ≠ .failed err) ∧
    (∀ id ∈ s.pool.flatMap Worker.ids, id ∈ F) ∧
    (∀ id ∈ s.feeder.rest, id ∈ F) ∧
    List.Perm
      (res ++ s.pool.flatMap Worker.out ++
        (s.pool.flatMap Worker.ids ++ s.feeder.rest).map (direntOf cname))
      (F.map (direntOf cname)) ∧
    (s.feeder = .finished → ∀ w ∈ s.pool, w = .done) ∧
    (Worker.done ∈ s.pool → ∀ rest, s.feeder ≠ .feeding rest)
  | .returned res err => err = none ∧ List.Perm res (F.map (direntOf cname))

/-! ## A sample mount -/

/-- A sample handle type: the canonical name and the two flags. -/
structure SampleHandle where
  canon : String
  isPublic : Bool
  hasPublic : Bool
deriving DecidableEq, Repr

/-- A sample parser: member lists are put in order, `@public` marks a public
handle, `alice,bob` and `carol` have a public subdirectory. -/
def sampleParse (name : String) : Except Error SampleHandle :=
  if name = "alice,bob" ∨ name = "bob,alice" then .ok ⟨"alice,bob", false, true⟩
  else if name = "carol" then .ok ⟨"carol", false, true⟩
  else if name = "dave,erin" ∨ name = "erin,dave" then .ok ⟨"dave,erin", false, false⟩
  else if name = "frank" then .ok ⟨"frank", false, false⟩
  else if name = "alice,bob@public" then .ok ⟨"alice,bob@public", true, false⟩
  else .error (.other 22)

/-- A sample backend, whose state counts the calls: `alice,bob` and `frank`
are unreadable, `dave,erin` is unreachable, `carol` resolves; folder 3 of the
favorites fails to resolve, and is no longer a favorite once the backend has
served ten calls. -/
def sampleConfig : Config SampleHandle Nat where
  ParseTlfHandle := sampleParse
  IsPublic := fun dh => dh.isPublic
  HasPublic := fun dh => dh.hasPublic
  ToString := fun dh => dh.canon
  GetOrCreateRootNodeForHandle := fun b dh _ =>
    if dh.canon = "carol" then (.ok (some ⟨7, ⟨4, MasterBranch⟩⟩), b + 1)
    else if dh.canon = "dave,erin" then (.error (.other 5), b + 1)
    else (.error (.ReadAccessError "denied"), b + 1)
  RegisterForChanges := fun b _ _ => (none, b + 1)
  GetRootNode := fun b fb =>
    if fb.Tlf = 1 then (.ok ⟨"alice,bob", false, true⟩, b + 1)
    else if fb.Tlf = 2 then (.ok ⟨"carol", false, true⟩, b + 1)
    else (.error (.other 5), b + 1)
  GetFavDirs := fun b => if b < 10 then (.ok [1, 2, 3], b + 1) else (.ok [1, 2], b + 1)

/-- A schedule of the sample listing: worker 0 serves the three favorites one
after the other and reports the failure of the third; the feeder closes
`work`, the other workers end, the feeder closes `results`; only then does
the collector run its `select` again, and takes the case of `results`. -/
def sampleSchedule : List Action :=
  [.recvWork 0, .getRootNode 0, .sendResult 0,
   .recvWork 0, .getRootNode 0, .sendResult 0,
   .recvWork 0, .getRootNode 0, .reportErr 0,
   .closeWork,
   .workClosed 1, .workClosed 2, .workClosed 3, .workClosed 4, .workClosed 5,
   .workClosed 6, .workClosed 7, .workClosed 8, .workClosed 9,
   .closeResults, .recvClosed]

/-- A schedule of the listing of two favorites: workers 0 and 1 serve one
favorite each, and worker 1 hands its entry over first. -/
def sampleSchedule2 : List Action :=
  [.recvWork 0, .recvWork 1, .getRootNode 1, .getRootNode 0, .closeWork,
   .sendResult 1, .sendResult 0,
   .workClosed 0, .workClosed 1, .workClosed 2, .workClosed 3, .workClosed 4,
   .workClosed 5, .workClosed 6, .workClosed 7, .workClosed 8, .workClosed 9,
   .closeResults, .recvClosed]

/-! ## Lemmas on `Root.Lookup` -/

section LookupLemmas

variable {H B : Type}

theorem modify_append_length {α : Type} (f : α → α) (l : List α) (x : α) :
    (l ++ [x]).modify f l.length = l ++ [f x] := by
  induction l with
  | nil => rfl
  | cons a l ih => simpa [List.modify] using ih

/-- The state in which `getMD` leaves the `Root`: only the backend has moved
and the call is recorded. -/
theorem getMD_state (cfg : Config H B) (r : Root H B) (dh : H) :
    (Root.getMD cfg r dh).2 =
      { r with backend := (cfg.GetOrCreateRootNodeForHandle r.backend dh MasterBranch).2,
               calls := r.calls ++ [Call.GetOrCreateRootNodeForHandle dh MasterBranch] } := by
  unfold Root.getMD Root.callGetOrCreateRootNodeForHandle
  cases (cfg.GetOrCreateRootNodeForHandle r.backend dh MasterBranch).1 with
  | error err => by_cases hc : (err.isReadAccessError && cfg.HasPublic dh) = true <;> simp [hc]
  | ok n => simp

/-- The result of `getMD`, by the result of the backend. -/
theorem getMD_result (cfg : Config H B) (r : Root H B) (dh : H) :
    (Root.getMD cfg r dh).1 =
      match (cfg.GetOrCreateRootNodeForHandle r.backend dh MasterBranch).1 with
      | .error err =>
        if err.isReadAccessError && cfg.HasPublic dh then .ok none else .error err
      | .ok rootNode => .ok rootNode := by
  unfold Root.getMD Root.callGetOrCreateRootNodeForHandle
  cases (cfg.GetOrCreateRootNodeForHandle r.backend dh MasterBranch).1 with
  | error err => by_cases hc : (err.isReadAccessError && cfg.HasPublic dh) = true <;> simp [hc]
  | ok n => simp

/-- A cache hit returns the cached wrapper and leaves the state as it is. -/
theorem Lookup_hit (cfg : Config H B) (r : Root H B) (name : String) (p : DirPtr)
    (h : r.folders name = some p) : Root.Lookup cfg r name = (.ok (.dir p), r) := by
  unfold Root.Lookup
  simp [h]

/-- A name that does not parse: the parser's error, state as it is. -/
theorem Lookup_parse_error (cfg : Config H B) (r : Root H B) (name : String) (err : Error)
    (hf : r.folders name = none) (hp : cfg.ParseTlfHandle name = .error err) :
    Root.Lookup cfg r name = (.error err, r) := by
  unfold Root.Lookup
  simp [hf, hp]

/-- An uncached public name: ENOENT, state as it is. -/
theorem Lookup_public (cfg : Config H B) (r : Root H B) (name : String) (dh : H)
    (hf : r.folders name = none) (hp : cfg.ParseTlfHandle name = .ok dh)
    (hpub : cfg.IsPublic dh = true) :
    Root.Lookup cfg r name = (.error .ENOENT, r) := by
  unfold Root.Lookup
  simp [hf, hp, hpub]

/-- An uncached name that is not canonical: an alias, state as it is. -/
theorem Lookup_alias (cfg : Config H B) (r : Root H B) (name : String) (dh : H)
    (hf : r.folders name = none) (hp : cfg.ParseTlfHandle name = .ok dh)
    (hpub : cfg.IsPublic dh = false) (hcanon : cfg.ToString dh ≠ name) :
    Root.Lookup cfg r name = (.ok (.alias (cfg.ToString dh)), r) := by
  unfold Root.Lookup
  simp [hf, hp, hpub, hcanon]

/-- An uncached canonical name for which `getMD` fails: the error of `getMD`. -/
theorem Lookup_getMD_error (cfg : Config H B) (r : Root H B) (name : String) (dh : H)
    (err : Error) (r1 : Root H B)
    (hf : r.folders name = none) (hp : cfg.ParseTlfHandle name = .ok dh)
    (hpub : cfg.IsPublic dh = false) (hcanon : cfg.ToString dh = name)
    (hmd : Root.getMD cfg r dh = (.error err, r1)) :
    Root.Lookup cfg r name = (.error err, r1) := by
  unfold Root.Lookup
  simp [hf, hp, hpub, hcanon, hmd]

/-- An uncached canonical name for which `RegisterForChanges` fails. -/
theorem Lookup_register_error (cfg : Config H B) (r : Root H B) (name : String) (dh : H)
    (rootNode : Option Node) (err : Error) (r1 : Root H B)
    (hf : r.folders name = none) (hp : cfg.ParseTlfHandle name = .ok dh)
    (hpub : cfg.IsPublic dh = false) (hcanon : cfg.ToString dh = name)
    (hmd : Root.getMD cfg r dh = (.ok rootNode, r1))
    (hreg : (cfg.RegisterForChanges r1.backend [folderBranchOf rootNode]
      r1.folderObjs.length).1 = some err) :
    Root.Lookup cfg r name = (.error err, Root.afterRegister cfg r1 dh rootNode) := by
  unfold Root.Lookup
  simp [hf, hp, hpub, hcanon, hmd, Root.allocFolder, Root.callRegisterForChanges, hreg,
    Root.afterRegister]

/-- An uncached canonical name that resolves: the new wrapper and the state. -/
theorem Lookup_fresh (cfg : Config H B) (r : Root H B) (name : String) (dh : H)
    (rootNode : Option Node) (r1 : Root H B)
    (hf : r.folders name = none) (hp : cfg.ParseTlfHandle name = .ok dh)
    (hpub : cfg.IsPublic dh = false) (hcanon : cfg.ToString dh = name)
    (hmd : Root.getMD cfg r dh = (.ok rootNode, r1))
    (hreg : (cfg.RegisterForChanges r1.backend [folderBranchOf rootNode]
      r1.folderObjs.length).1 = none) :
    Root.Lookup cfg r name =
      (.ok (.dir r1.dirObjs.length), Root.afterFresh cfg r1 name dh rootNode) := by
  unfold Root.Lookup
  simp only [hf, hp, hpub, hcanon, hmd, Root.allocFolder, Root.callRegisterForChanges, hreg,
    Root.allocDir, ne_eq, not_true_eq_false, ite_false, Bool.false_eq_true]
  cases rootNode <;> by_cases hhp : cfg.HasPublic dh = true <;>
    simp [hhp, Root.setNode, Root.setHasPublic, Root.setFolder, Root.afterFresh, freshFolder,
      modify_append_length, newDir]

/-- Every call of `Root.Lookup` follows one of the paths. -/
theorem Lookup_path (cfg : Config H B) (r : Root H B) (name : String) :
    LookupPath cfg r name (Root.Lookup cfg r name) := by
  cases hf : r.folders name with
  | some p => rw [Lookup_hit cfg r name p hf]; exact .hit p hf
  | none =>
    cases hp : cfg.ParseTlfHandle name with
    | error err => rw [Lookup_parse_error cfg r name err hf hp]; exact .parseError err hf hp
    | ok dh =>
      cases hpub : cfg.IsPublic dh with
      | true => rw [Lookup_public cfg r name dh hf hp hpub]; exact .isPublic dh hf hp hpub
      | false =>
        by_cases hcanon : cfg.ToString dh = name
        · rcases hmd : Root.getMD cfg r dh with ⟨res, r1⟩
          cases res with
          | error err =>
            rw [Lookup_getMD_error cfg r name dh err r1 hf hp hpub hcanon hmd]
            exact .getMDError dh err r1 hf hp hpub hcanon hmd
          | ok rootNode =>
            cases hreg : (cfg.RegisterForChanges r1.backend [folderBranchOf rootNode]
              r1.folderObjs.length).1 with
            | some err =>
              rw [Lookup_register_error cfg r name dh rootNode err r1 hf hp hpub hcanon hmd hreg]
              exact .registerError dh rootNode err r1 hf hp hpub hcanon hmd hreg
            | none =>
              rw [Lookup_fresh cfg r name dh rootNode r1 hf hp hpub hcanon hmd hreg]
              exact .fresh dh rootNode r1 hf hp hpub hcanon hmd hreg
        · rw [Lookup_alias cfg r name dh hf hp hpub hcanon]
          exact .redirect dh hf hp hpub hcanon

/-- The state after `getMD` has the map `r.folders` of the state before. -/
theorem getMD_folders (cfg : Config H B) (r : Root H B) (dh : H)
    (res : Except Error (Option Node)) (r1 : Root H B)
    (hmd : Root.getMD cfg r dh = (res, r1)) : r1.folders = r.folders := by
  have h := getMD_state cfg r dh
  rw [hmd] at h
  simp only at h
  rw [h]

/-- One `Lookup` keeps the keys of `r.folders` canonical. -/
theorem Lookup_keys (cfg : Config H B) (r : Root H B) (name : String)
    (hr : ∀ k p, r.folders k = some p → CanonicalKey cfg k) :
    ∀ k p, (Root.Lookup cfg r name).2.folders k = some p → CanonicalKey cfg k := by
  intro k p hk
  have hpath := Lookup_path cfg r name
  generalize Root.Lookup cfg r name = out at hpath hk
  cases hpath with
  | hit q hf => exact hr k p hk
  | parseError err hf hp => exact hr k p hk
  | isPublic dh hf hp hpub => exact hr k p hk
  | redirect dh hf hp hpub hcanon => exact hr k p hk
  | getMDError dh err r1 hf hp hpub hcanon hmd =>
    rw [getMD_folders cfg r dh _ r1 hmd] at hk
    exact hr k p hk
  | registerError dh rootNode err r1 hf hp hpub hcanon hmd hreg =>
    simp only [Root.afterRegister] at hk
    rw [getMD_folders cfg r dh _ r1 hmd] at hk
    exact hr k p hk
  | fresh dh rootNode r1 hf hp hpub hcanon hmd hreg =>
    simp only [Root.afterFresh] at hk
    rw [getMD_folders cfg r dh _ r1 hmd] at hk
    by_cases hkn : k = name
    · subst hkn
      exact ⟨dh, hp, hpub, hcanon⟩
    · rw [Function.update_noteq hkn] at hk
      exact hr k p hk

/-- A sequence of `Lookup`s keeps the keys of `r.folders` canonical. -/
theorem Lookups_keys (cfg : Config H B) (names : List String) (r : Root H B)
    (hr : ∀ k p, r.folders k = some p → CanonicalKey cfg k) :
    ∀ k p, (Root.Lookups cfg r names).folders k = some p → CanonicalKey cfg k := by
  induction names generalizing r with
  | nil => exact hr
  | cons n ns ih =>
    simp only [Root.Lookups, List.foldl_cons]
    exact ih _ (Lookup_keys cfg r n hr)

end LookupLemmas

/-! ## Lemmas on `ReadDirAll` -/

section ReadDirLemmas

variable {H B : Type}

/-- A list split at an index, and what `set` does there. -/
theorem set_split {α : Type} (l : List α) (i : Nat) (w : α) (h : l[i]? = some w) :
    ∃ l1 l2, l = l1 ++ w :: l2 ∧ ∀ w2, l.set i w2 = l1 ++ w2 :: l2 := by
  induction l generalizing i with
  | nil => simp at h
  | cons a l ih =>
    cases i with
    | zero =>
      simp only [List.getElem?_cons_zero, Option.some.injEq] at h
      subst h
      exact ⟨[], l, rfl, fun _ => rfl⟩
    | succ i =>
      simp only [List.getElem?_cons_succ] at h
      obtain ⟨l1, l2, hl, hs⟩ := ih i h
      refine ⟨a :: l1, l2, by simp [hl], fun w2 => ?_⟩
      simp [List.set_cons_succ, hs]

/-- Every enabled step of `ReadDir.step` is a step of the relation. -/
theorem step_sound (cfg : Config H B) (s s1 : ReadDir B) (a : Action)
    (h : s.step cfg a = some s1) : Step cfg s a s1 := by
  cases a with
  | recvWork i =>
    simp only [ReadDir.step] at h
    split at h
    · next tlfID rest hf hp =>
      obtain ⟨l1, l2, hl, hs⟩ := set_split _ _ _ hp
      cases h
      rw [hs]
      exact .recvWork s i l1 l2 tlfID rest hf hl
    · cases h
  | workClosed i =>
    simp only [ReadDir.step] at h
    split at h
    · cases h
    · next hp hnf =>
      obtain ⟨l1, l2, hl, hs⟩ := set_split _ _ _ hp
      cases h
      rw [hs]
      refine .workClosed s i l1 l2 ?_ hl
      cases hfd : s.feeder with
      | feeding rest => exact absurd hfd (hnf rest)
      | waiting => exact Or.inl rfl
      | finished => exact Or.inr rfl
    · cases h
  | ctxDone i =>
    simp only [ReadDir.step] at h
    split at h
    · next err hc hp =>
      obtain ⟨l1, l2, hl, hs⟩ := set_split _ _ _ hp
      cases h
      rw [hs]
      exact .ctxDone s i l1 l2 err hc hl
    · cases h
  | getRootNode i =>
    simp only [ReadDir.step] at h
    split at h
    · next tlfID hp =>
      obtain ⟨l1, l2, hl, hs⟩ := set_split _ _ _ hp
      split at h
      · next err b hg =>
        cases h
        rw [hs]
        exact .getRootNodeError s i l1 l2 tlfID err b hl hg
      · next dh b hg =>
        cases h
        rw [hs]
        exact .getRootNodeOk s i l1 l2 tlfID dh b hl hg
    · cases h
  | sendResult i =>
    simp only [ReadDir.step] at h
    split at h
    · next res d hm hp =>
      obtain ⟨l1, l2, hl, hs⟩ := set_split _ _ _ hp
      cases h
      rw [hs]
      exact .sendResult s i l1 l2 res d hm hl
    · cases h
  | reportErr i =>
    simp only [ReadDir.step] at h
    split at h
    · next err hp =>
      obtain ⟨l1, l2, hl, hs⟩ := set_split _ _ _ hp
      cases h
      rw [hs]
      exact .reportErr s i l1 l2 err hl
    · cases h
  | closeWork =>
    simp only [ReadDir.step] at h
    split at h
    · next hf =>
      cases h
      exact .closeWork s hf
    · cases h
  | closeResults =>
    simp only [ReadDir.step] at h
    split at h
    · next hf =>
      split at h
      · next hall =>
        cases h
        refine .closeResults s hf ?_
        intro w hw
        have := List.all_eq_true.1 hall w hw
        simpa using this
      · cases h
    · cases h
  | recvClosed =>
    simp only [ReadDir.step] at h
    split at h
    · next res hm hf =>
      cases h
      exact .recvClosed s res hm hf
    · cases h
  | recvErr =>
    simp only [ReadDir.step] at h
    split at h
    · next res err hm he =>
      cases h
      exact .recvErr s res err hm he
    · cases h
  | parentDone err =>
    simp only [ReadDir.step] at h
    split at h
    · next hc =>
      cases h
      exact .parentDone s err hc
    · cases h

/-- Every step other than the caller's cancellation lowers the weight. -/
theorem Step_weight (cfg : Config H B) (s s1 : ReadDir B) (a : Action)
    (h : Step cfg s a s1) (ha : a.isParentDone = false) : s1.weight < s.weight := by
  cases h with
  | recvWork i l1 l2 tlfID rest hf hp =>
    simp only [ReadDir.weight, hf, hp, Feeder.weight, List.map_append, List.map_cons,
      List.sum_append, List.sum_cons, Worker.weight, List.length_cons]
    omega
  | workClosed i l1 l2 hf hp =>
    simp only [ReadDir.weight, hp, List.map_append, List.map_cons,
      List.sum_append, List.sum_cons, Worker.weight]
    omega
  | ctxDone i l1 l2 err hc hp =>
    simp only [ReadDir.weight, hp, List.map_append, List.map_cons,
      List.sum_append, List.sum_cons, Worker.weight]
    omega
  | getRootNodeError i l1 l2 tlfID err b hp hg =>
    simp only [ReadDir.weight, hp, List.map_append, List.map_cons,
      List.sum_append, List.sum_cons, Worker.weight]
    omega
  | getRootNodeOk i l1 l2 tlfID dh b hp hg =>
    simp only [ReadDir.weight, hp, List.map_append, List.map_cons,
      List.sum_append, List.sum_cons, Worker.weight]
    omega
  | sendResult i l1 l2 res d hm hp =>
    simp only [ReadDir.weight, hp, hm, List.map_append, List.map_cons,
      List.sum_append, List.sum_cons, Worker.weight, Collector.weight]
    omega
  | reportErr i l1 l2 err hp =>
    simp only [ReadDir.weight, hp, List.map_append, List.map_cons,
      List.sum_append, List.sum_cons, Worker.weight]
    omega
  | closeWork hf =>
    simp only [ReadDir.weight, hf, Feeder.weight, List.length_nil]
    omega
  | closeResults hf hall =>
    simp only [ReadDir.weight, hf, Feeder.weight]
    omega
  | recvClosed res hm hf =>
    simp only [ReadDir.weight, hm, Collector.weight]
    omega
  | recvErr res err hm he =>
    simp only [ReadDir.weight, hm, Collector.weight]
    omega
  | parentDone err hc => simp [Action.isParentDone] at ha

/-- A schedule without the caller's cancellation is no longer than the weight
of the state it starts from. -/
theorem run_length (cfg : Config H B) (acts : List Action) (s s1 : ReadDir B)
    (hno : ∀ a ∈ acts, a.isParentDone = false) (hrun : s.run cfg acts = some s1) :
    acts.length + s1.weight ≤ s.weight := by
  induction acts generalizing s with
  | nil =>
    simp only [ReadDir.run, Option.some.injEq] at hrun
    subst hrun
    simp
  | cons a rest ih =>
    simp only [ReadDir.run] at hrun
    cases hstep : s.step cfg a with
    | none => simp [hstep] at hrun
    | some s2 =>
      simp only [hstep] at hrun
      have h1 := ih s2 (fun x hx => hno x (List.mem_cons_of_mem _ hx)) hrun
      have h2 := Step_weight cfg s s2 a (step_sound cfg s s2 a hstep)
        (hno a (List.mem_cons_self _ _))
      simp only [List.length_cons]
      omega

/-- The invariant while the collector is in its loop. -/
theorem Good_collecting (F : List TlfID) (cname : TlfID → String) (s : ReadDir B)
    (res : List Dirent) (hm : s.main = .collecting res) :
    Good F cname s ↔
      (s.errCh = none ∧ s.ctxErr = none ∧ s.pool.length = workers ∧
      (∀ w ∈ s.pool, ∀ err, w ≠ .failed err) ∧
      (∀ id ∈ s.pool.flatMap Worker.ids, id ∈ F) ∧
      (∀ id ∈ s.feeder.rest, id ∈ F) ∧
      List.Perm
        (res ++ s.pool.flatMap Worker.out ++
          (s.pool.flatMap Worker.ids ++ s.feeder.rest).map (direntOf cname))
        (F.map (direntOf cname)) ∧
      (s.feeder = .finished → ∀ w ∈ s.pool, w = .done) ∧
      (Worker.done ∈ s.pool → ∀ rest, s.feeder ≠ .feeding rest)) := by
  simp only [Good, hm]

/-- The invariant once the collector has returned. -/
theorem Good_returned (F : List TlfID) (cname : TlfID → String) (s : ReadDir B)
    (res : List Dirent) (err : Option Error) (hm : s.main = .returned res err) :
    Good F cname s ↔ (err = none ∧ List.Perm res (F.map (direntOf cname))) := by
  simp only [Good, hm]

/-- Every step other than the caller's cancellation keeps the invariant, when
every favorite resolves. -/
theorem Step_Good (cfg : Config H B) (F : List TlfID) (cname : TlfID → String)
    (hroot : ∀ b, ∀ id ∈ F, ∃ dh,
      (cfg.GetRootNode b { Tlf := id, Branch := MasterBranch }).1 = .ok dh ∧
      cfg.ToString dh = cname id)
    (s s1 : ReadDir B) (a : Action) (h : Step cfg s a s1) (ha : a.isParentDone = false)
    (hg : Good F cname s) : Good F cname s1 := by
  cases hm : s.main with
  | returned res err =>
    cases h with
    | recvWork i l1 l2 tlfID rest hf hp => simpa only [Good, hm] using hg
    | workClosed i l1 l2 hf hp => simpa only [Good, hm] using hg
    | ctxDone i l1 l2 err hc hp => simpa only [Good, hm] using hg
    | getRootNodeError i l1 l2 tlfID err b hp hg2 => simpa only [Good, hm] using hg
    | getRootNodeOk i l1 l2 tlfID dh b hp hg2 => simpa only [Good, hm] using hg
    | sendResult i l1 l2 res d hm2 hp => rw [hm] at hm2; cases hm2
    | reportErr i l1 l2 err hp => simpa only [Good, hm] using hg
    | closeWork hf => simpa only [Good, hm] using hg
    | closeResults hf hall => simpa only [Good, hm] using hg
    | recvClosed res hm2 hf => rw [hm] at hm2; cases hm2
    | recvErr res err hm2 he => rw [hm] at hm2; cases hm2
    | parentDone err hc => simp [Action.isParentDone] at ha
  | collecting res =>
    rw [Good_collecting F cname s res hm] at hg
    obtain ⟨hE, hC, hL, hNF, hI, hR, hP, hFin, hD⟩ := hg
    cases h with
    | recvWork i l1 l2 tlfID rest hf hp =>
      simp only [Good, hm]
      simp only [hp, hf, Feeder.rest] at *
      refine ⟨hE, hC, ?_, ?_, ?_, ?_, ?_, ?_, ?_⟩
      · simpa using hL
      · intro w hw err
        simp only [List.mem_append, List.mem_cons] at hw hNF
        rcases hw with hw | rfl | hw
        · exact hNF w (Or.inl hw) err
        · simp
        · exact hNF w (Or.inr (Or.inr hw)) err
      · intro id hid
        simp only [List.flatMap_append, List.flatMap_cons, Worker.ids, List.mem_append,
          List.mem_cons, List.nil_append, List.singleton_append] at hid hI
        rcases hid with hid | rfl | hid
        · exact hI id (Or.inl hid)
        · exact hR id (List.mem_cons_self _ _)
        · exact hI id (Or.inr hid)
      · intro id hid
        exact hR id (List.mem_cons_of_mem _ hid)
      · refine List.Perm.trans ?_ hP
        rw [List.perm_iff_count]
        intro x
        simp only [List.flatMap_append, List.flatMap_cons, Worker.ids, Worker.out,
          List.map_append, List.map_cons, List.count_append, List.count_cons,
          List.nil_append, List.singleton_append]
        omega
      · intro h0
        cases h0
      · intro hd
        exfalso
        refine hD ?_ (tlfID :: rest) rfl
        simp only [List.mem_append, List.mem_cons] at hd ⊢
        rcases hd with hd | hd | hd
        · exact Or.inl hd
        · cases hd
        · exact Or.inr (Or.inr hd)
    | workClosed i l1 l2 hf hp =>
      simp only [Good, hm]
      simp only [hp] at *
      refine ⟨hE, hC, ?_, ?_, ?_, hR, ?_, ?_, ?_⟩
      · simpa using hL
      · intro w hw err
        simp only [List.mem_append, List.mem_cons] at hw hNF
        rcases hw with hw | rfl | hw
        · exact hNF w (Or.inl hw) err
        · simp
        · exact hNF w (Or.inr (Or.inr hw)) err
      · intro id hid
        simp only [List.flatMap_append, List.flatMap_cons, Worker.ids, List.mem_append,
          List.nil_append] at hid hI
        exact hI id hid
      · refine List.Perm.trans ?_ hP
        rw [List.perm_iff_count]
        intro x
        simp only [List.flatMap_append, List.flatMap_cons, Worker.ids, Worker.out,
          List.map_append, List.count_append, List.nil_append]
      · intro h0
        have := hFin h0 .selecting (by simp)
        cases this
      · intro _ rest2 h0
        rcases hf with hf | hf <;> rw [hf] at h0 <;> cases h0
    | ctxDone i l1 l2 err hc hp => rw [hC] at hc; cases hc
    | getRootNodeError i l1 l2 tlfID err b hp hg2 =>
      exfalso
      have hin : tlfID ∈ F := hI tlfID (by simp [hp, Worker.ids])
      obtain ⟨dh, h1, _⟩ := hroot s.backend tlfID hin
      rw [hg2] at h1
      cases h1
    | getRootNodeOk i l1 l2 tlfID dh b hp hg2 =>
      have hin : tlfID ∈ F := hI tlfID (by simp [hp, Worker.ids])
      obtain ⟨dh2, h1, h2⟩ := hroot s.backend tlfID hin
      rw [hg2] at h1
      simp only [Except.ok.injEq] at h1
      subst h1
      simp only [Good, hm]
      simp only [hp] at *
      refine ⟨hE, hC, ?_, ?_, ?_, hR, ?_, ?_, ?_⟩
      · simpa using hL
      · intro w hw err
        simp only [List.mem_append, List.mem_cons] at hw hNF
        rcases hw with hw | rfl | hw
        · exact hNF w (Or.inl hw) err
        · simp
        · exact hNF w (Or.inr (Or.inr hw)) err
      · intro id hid
        simp only [List.flatMap_append, List.flatMap_cons, Worker.ids, List.mem_append,
          List.mem_cons, List.nil_append, List.singleton_append] at hid hI
        rcases hid with hid | hid
        · exact hI id (Or.inl hid)
        · exact hI id (Or.inr (Or.inr hid))
      · refine List.Perm.trans ?_ hP
        rw [List.perm_iff_count]
        intro x
        simp only [List.flatMap_append, List.flatMap_cons, Worker.ids, Worker.out,
          List.map_append, List.map_cons, List.count_append, List.count_cons,
          List.nil_append, List.singleton_append, h2, direntOf]
        omega
      · intro h0
        have := hFin h0 (.received tlfID) (by simp)
        cases this
      · intro hd
        refine hD ?_
        simp only [List.mem_append, List.mem_cons] at hd ⊢
        rcases hd with hd | hd | hd
        · exact Or.inl hd
        · cases hd
        · exact Or.inr (Or.inr hd)
    | sendResult i l1 l2 res2 d hm2 hp =>
      rw [hm] at hm2
      simp only [Collector.collecting.injEq] at hm2
      subst hm2
      simp only [Good]
      simp only [hp] at *
      refine ⟨hE, hC, ?_, ?_, ?_, hR, ?_, ?_, ?_⟩
      · simpa using hL
      · intro w hw err
        simp only [List.mem_append, List.mem_cons] at hw hNF
        rcases hw with hw | rfl | hw
        · exact hNF w (Or.inl hw) err
        · simp
        · exact hNF w (Or.inr (Or.inr hw)) err
      · intro id hid
        simp only [List.flatMap_append, List.flatMap_cons, Worker.ids, List.mem_append,
          List.nil_append] at hid hI
        exact hI id hid
      · refine List.Perm.trans ?_ hP
        rw [List.perm_iff_count]
        intro x
        simp only [List.flatMap_append, List.flatMap_cons, Worker.ids, Worker.out,
          List.map_append, List.count_append, List.count_cons,
          List.nil_append, List.singleton_append, List.count_nil]
        omega
      · intro h0
        have := hFin h0 (.sending d) (by simp)
        cases this
      · intro hd
        refine hD ?_
        simp only [List.mem_append, List.mem_cons] at hd ⊢
        rcases hd with hd | hd | hd
        · exact Or.inl hd
        · cases hd
        · exact Or.inr (Or.inr hd)
    | reportErr i l1 l2 err hp =>
      exfalso
      exact hNF (.failed err) (by simp [hp]) err rfl
    | closeWork hf =>
      simp only [Good, hm]
      simp only [hf, Feeder.rest] at hR hP ⊢
      refine ⟨hE, hC, hL, hNF, hI, hR, hP, ?_, ?_⟩
      · intro h0
        cases h0
      · intro _ rest h0
        cases h0
    | closeResults hf hall =>
      simp only [Good, hm]
      simp only [hf, Feeder.rest] at hR hP ⊢
      refine ⟨hE, hC, hL, hNF, hI, hR, hP, ?_, ?_⟩
      · intro _
        exact hall
      · intro _ rest h0
        cases h0
    | recvClosed res2 hm2 hf =>
      rw [hm] at hm2
      simp only [Collector.collecting.injEq] at hm2
      subst hm2
      simp only [Good]
      refine ⟨trivial, ?_⟩
      have hall := hFin hf
      have h1 : s.pool.flatMap Worker.out = [] := by
        rw [List.flatMap_eq_nil_iff]
        intro w hw
        rw [hall w hw]
        rfl
      have h2 : s.pool.flatMap Worker.ids = [] := by
        rw [List.flatMap_eq_nil_iff]
        intro w hw
        rw [hall w hw]
        rfl
      simpa [h1, h2, hf, Feeder.rest] using hP
    | recvErr res err hm2 he => rw [hE] at he; cases he
    | parentDone err hc => simp [Action.isParentDone] at ha

/-- The invariant holds when the goroutines start. -/
theorem Good_start (cfg : Config H B) (F : List TlfID) (cname : TlfID → String) (b : B)
    (hfav : (cfg.GetFavDirs b).1 = .ok F) : Good F cname (Root.ReadDirAll cfg b) := by
  unfold Root.ReadDirAll
  rcases hg : cfg.GetFavDirs b with ⟨r, b1⟩
  rw [hg] at hfav
  simp only at hfav
  subst hfav
  have h1 : ∀ n, (List.replicate n Worker.selecting).flatMap Worker.out = [] := by
    intro n
    rw [List.flatMap_eq_nil_iff]
    intro w hw
    rw [List.eq_of_mem_replicate hw]
    rfl
  have h2 : ∀ n, (List.replicate n Worker.selecting).flatMap Worker.ids = [] := by
    intro n
    rw [List.flatMap_eq_nil_iff]
    intro w hw
    rw [List.eq_of_mem_replicate hw]
    rfl
  simp only [Good, h1, h2, Feeder.rest]
  refine ⟨trivial, trivial, by simp, ?_, by simp, fun id h => h, by simp, ?_, ?_⟩
  · intro w hw err
    rw [List.eq_of_mem_replicate hw]
    simp
  · intro h0
    cases h0
  · intro hd
    have := List.eq_of_mem_replicate hd
    cases this

/-- The invariant holds along every schedule without the caller's
cancellation, when every favorite resolves. -/
theorem run_Good (cfg : Config H B) (F : List TlfID) (cname : TlfID → String)
    (hroot : ∀ b, ∀ id ∈ F, ∃ dh,
      (cfg.GetRootNode b { Tlf := id, Branch := MasterBranch }).1 = .ok dh ∧
      cfg.ToString dh = cname id)
    (acts : List Action) (s s1 : ReadDir B)
    (hno : ∀ a ∈ acts, a.isParentDone = false) (hrun : s.run cfg acts = some s1)
    (hg : Good F cname s) : Good F cname s1 := by
  induction acts generalizing s with
  | nil =>
    simp only [ReadDir.run, Option.some.injEq] at hrun
    subst hrun
    exact hg
  | cons a rest ih =>
    simp only [ReadDir.run] at hrun
    cases hstep : s.step cfg a with
    | none => simp [hstep] at hrun
    | some s2 =>
      simp only [hstep] at hrun
      exact ih s2 (fun x hx => hno x (List.mem_cons_of_mem _ hx)) hrun
        (Step_Good cfg F cname hroot s s2 a (step_sound cfg s s2 a hstep)
          (hno a (List.mem_cons_self _ _)) hg)

/-- While the collector is in its loop, some goroutine can take a step: the
call cannot get stuck before `ReadDirAll` returns. -/
theorem Good_progress (cfg : Config H B) (F : List TlfID) (cname : TlfID → String)
    (s : ReadDir B) (hg : Good F cname s) (hres : s.result = none) :
    ∃ a, a.isParentDone = false ∧ (s.step cfg a).isSome = true := by
  cases hm : s.main with
  | returned res err => simp [ReadDir.result, hm] at hres
  | collecting res =>
    rw [Good_collecting F cname s res hm] at hg
    obtain ⟨hE, hC, hL, hNF, hI, hR, hP, hFin, hD⟩ := hg
    by_cases h1 : ∃ id, Worker.received id ∈ s.pool
    · obtain ⟨id, hid⟩ := h1
      obtain ⟨i, hi⟩ := List.mem_iff_getElem?.1 hid
      refine ⟨.getRootNode i, rfl, ?_⟩
      simp only [ReadDir.step, hi]
      rcases hgr : cfg.GetRootNode s.backend { Tlf := id, Branch := MasterBranch } with ⟨r, b⟩
      cases r <;> simp
    · by_cases h2 : ∃ d, Worker.sending d ∈ s.pool
      · obtain ⟨d, hd⟩ := h2
        obtain ⟨i, hi⟩ := List.mem_iff_getElem?.1 hd
        refine ⟨.sendResult i, rfl, ?_⟩
        simp [ReadDir.step, hi, hm]
      · have hsel : ∀ w ∈ s.pool, w = .selecting ∨ w = .done := by
          intro w hw
          cases w with
          | selecting => exact Or.inl rfl
          | received id => exact absurd ⟨id, hw⟩ h1
          | sending d => exact absurd ⟨d, hw⟩ h2
          | failed err => exact absurd rfl (hNF _ hw err)
          | done => exact Or.inr rfl
        cases hf : s.feeder with
        | feeding rest =>
          cases rest with
          | nil =>
            refine ⟨.closeWork, rfl, ?_⟩
            simp [ReadDir.step, hf]
          | cons id rest =>
            have hlen : 0 < s.pool.length := by
              rw [hL]
              decide
            have h0 : s.pool[0]? = some s.pool[0] := List.getElem?_eq_getElem hlen
            have hmem : s.pool[0] ∈ s.pool := List.getElem_mem hlen
            have hw : s.pool[0] = .selecting := by
              rcases hsel _ hmem with h | h
              · exact h
              · rw [h] at hmem
                exact absurd hf (hD hmem (id :: rest))
            rw [hw] at h0
            refine ⟨.recvWork 0, rfl, ?_⟩
            simp [ReadDir.step, hf, h0]
        | waiting =>
          by_cases hall : ∀ w ∈ s.pool, w = .done
          · refine ⟨.closeResults, rfl, ?_⟩
            have : s.pool.all (fun w => w == .done) = true := by
              rw [List.all_eq_true]
              intro w hw
              simp [hall w hw]
            simp [ReadDir.step, hf, this]
          · push_neg at hall
            obtain ⟨w, hw, hnd⟩ := hall
            have hws : w = .selecting := by
              rcases hsel w hw with h | h
              · exact h
              · exact absurd h hnd
            subst hws
            obtain ⟨i, hi⟩ := List.mem_iff_getElem?.1 hw
            refine ⟨.workClosed i, rfl, ?_⟩
            simp [ReadDir.step, hf, hi]
        | finished =>
          refine ⟨.recvClosed, rfl, ?_⟩
          simp [ReadDir.step, hf, hm]

end ReadDirLemmas

/-! ## The properties of `Root.Lookup` -/

section LookupClaims

variable {H B : Type}

/-- C1 (resolution idempotence). If `Lookup(name)` returns a node without
error, the `Lookup(name)` that follows on the resulting state returns the same
node (the same `*Dir`, or an alias with the same canonical string) and leaves
the whole state as it is: in particular the record of backend calls gains
neither a `GetOrCreateRootNodeForHandle` nor a `RegisterForChanges`, and the
backend itself has not moved. -/
theorem Lookup_idempotent (cfg : Config H B) (r r1 : Root H B) (name : String) (node : FsNode)
    (h : Root.Lookup cfg r name = (.ok node, r1)) :
    Root.Lookup cfg r1 name = (.ok node, r1) ∧
      (Root.Lookup cfg r1 name).2.calls = r1.calls ∧
      (Root.Lookup cfg r1 name).2.backend = r1.backend := by
  have key : Root.Lookup cfg r1 name = (.ok node, r1) := by
    have hpath := Lookup_path cfg r name
    rw [h] at hpath
    cases hpath with
    | hit p hf => exact Lookup_hit cfg r name p hf
    | redirect dh hf hp hpub hcanon => exact Lookup_alias cfg r name dh hf hp hpub hcanon
    | fresh dh rootNode r0 hf hp hpub hcanon hmd hreg =>
      apply Lookup_hit
      simp [Root.afterFresh]
  rw [key]
  exact ⟨rfl, rfl, rfl⟩

/-- Witness of C1 on the sample mount: `carol` resolves, and resolves again. -/
theorem Lookup_idempotent_witness :
    Root.Lookup sampleConfig (FS.Root 0) "carol"
        = (.ok (.dir 0), (Root.Lookup sampleConfig (FS.Root 0) "carol").2) ∧
      (Root.Lookup sampleConfig (Root.Lookup sampleConfig (FS.Root 0) "carol").2 "carol"
          = (.ok (.dir 0), (Root.Lookup sampleConfig (FS.Root 0) "carol").2) ∧
        (Root.Lookup sampleConfig
          (Root.Lookup sampleConfig (FS.Root 0) "carol").2 "carol").2.calls
          = (Root.Lookup sampleConfig (FS.Root 0) "carol").2.calls ∧
        (Root.Lookup sampleConfig
          (Root.Lookup sampleConfig (FS.Root 0) "carol").2 "carol").2.backend
          = (Root.Lookup sampleConfig (FS.Root 0) "carol").2.backend) :=
  ⟨rfl, Lookup_idempotent sampleConfig (FS.Root 0) _ "carol" (.dir 0) rfl⟩

/-- C4 (bare public names are rejected). For a name that is not in the cache
and whose parsed handle is public, canonical or not, `Lookup` returns no node
and the error `ENOENT`, and leaves the state as it is: no call reaches the
backend, and no alias is returned. -/
theorem Lookup_public_ENOENT (cfg : Config H B) (r : Root H B) (name : String) (dh : H)
    (hf : r.folders name = none) (hp : cfg.ParseTlfHandle name = .ok dh)
    (hpub : cfg.IsPublic dh = true) :
    Root.Lookup cfg r name = (.error .ENOENT, r) ∧
      (Root.Lookup cfg r name).2.calls = r.calls ∧
      (∀ node, (Root.Lookup cfg r name).1 ≠ .ok node) := by
  rw [Lookup_public cfg r name dh hf hp hpub]
  exact ⟨rfl, rfl, fun node h => by cases h⟩

/-- Witness of C4 on the sample mount, at `alice,bob@public`. -/
theorem Lookup_public_ENOENT_witness :
    (FS.Root 0 : Root SampleHandle Nat).folders "alice,bob@public" = none ∧
      sampleConfig.ParseTlfHandle "alice,bob@public" = .ok ⟨"alice,bob@public", true, false⟩ ∧
      (Root.Lookup sampleConfig (FS.Root 0) "alice,bob@public" = (.error .ENOENT, FS.Root 0) ∧
        (Root.Lookup sampleConfig (FS.Root 0) "alice,bob@public").2.calls
          = (FS.Root 0 : Root SampleHandle Nat).calls ∧
        (∀ node, (Root.Lookup sampleConfig (FS.Root 0) "alice,bob@public").1 ≠ .ok node)) :=
  ⟨rfl, rfl, Lookup_public_ENOENT sampleConfig (FS.Root 0) "alice,bob@public"
    ⟨"alice,bob@public", true, false⟩ rfl rfl rfl⟩

/-- C2, as stated, fails on the sample mount: `erin,dave` is uncached, parses
to a handle that is not public and whose canonical string `dave,erin` differs
from it, and `Lookup` answers with the alias `dave,erin`; but the `Lookup` of
`dave,erin` that follows returns the backend's error, not a directory node. -/
theorem Lookup_alias_then_error :
    (FS.Root 0 : Root SampleHandle Nat).folders "erin,dave" = none ∧
      sampleConfig.ParseTlfHandle "erin,dave" = .ok ⟨"dave,erin", false, false⟩ ∧
      (Root.Lookup sampleConfig (FS.Root 0) "erin,dave").1 = .ok (.alias "dave,erin") ∧
      (Root.Lookup sampleConfig (Root.Lookup sampleConfig (FS.Root 0) "erin,dave").2
        "dave,erin").1 = .error (.other 5) ∧
      ¬ ∃ p, (Root.Lookup sampleConfig (Root.Lookup sampleConfig (FS.Root 0) "erin,dave").2
        "dave,erin").1 = .ok (.dir p) :=
  ⟨rfl, rfl, rfl, rfl, fun ⟨_, h⟩ => by
    have h2 : (Root.Lookup sampleConfig (Root.Lookup sampleConfig (FS.Root 0) "erin,dave").2
        "dave,erin").1 = .error (.other 5) := rfl
    rw [h2] at h
    cases h⟩

/-- C2, amended. For an uncached name whose parsed handle is not public and
whose canonical string `c` differs from the name, `Lookup` returns an alias
whose `canon` is exactly `c` and changes nothing. The `Lookup(c)` that follows
returns the cached directory node when `c` is cached; it never returns another
alias when `c` parses to a handle whose canonical string is `c`; it returns a
new directory node when `c` is uncached, parses to a handle that is not public
and whose canonical string is `c`, and `getMD` and `RegisterForChanges`
succeed; and it returns the error of `getMD` when `getMD` fails for such a
`c`. -/
theorem Lookup_alias_redirect (cfg : Config H B) (r : Root H B) (name : String) (dh : H)
    (hf : r.folders name = none) (hp : cfg.ParseTlfHandle name = .ok dh)
    (hpub : cfg.IsPublic dh = false) (hcanon : cfg.ToString dh ≠ name) :
    Root.Lookup cfg r name = (.ok (.alias (cfg.ToString dh)), r) ∧
      (∀ p, r.folders (cfg.ToString dh) = some p →
        (Root.Lookup cfg (Root.Lookup cfg r name).2 (cfg.ToString dh)).1 = .ok (.dir p)) ∧
      (∀ dh2, cfg.ParseTlfHandle (cfg.ToString dh) = .ok dh2 →
        cfg.ToString dh2 = cfg.ToString dh →
        ∀ c, (Root.Lookup cfg (Root.Lookup cfg r name).2 (cfg.ToString dh)).1 ≠ .ok (.alias c)) ∧
      (∀ dh2 rootNode r1, r.folders (cfg.ToString dh) = none →
        cfg.ParseTlfHandle (cfg.ToString dh) = .ok dh2 → cfg.IsPublic dh2 = false →
        cfg.ToString dh2 = cfg.ToString dh →
        Root.getMD cfg r dh2 = (.ok rootNode, r1) →
        (cfg.RegisterForChanges r1.backend [folderBranchOf rootNode]
          r1.folderObjs.length).1 = none →
        (Root.Lookup cfg (Root.Lookup cfg r name).2 (cfg.ToString dh)).1
          = .ok (.dir r.dirObjs.length)) ∧
      (∀ dh2 err r1, r.folders (cfg.ToString dh) = none →
        cfg.ParseTlfHandle (cfg.ToString dh) = .ok dh2 → cfg.IsPublic dh2 = false →
        cfg.ToString dh2 = cfg.ToString dh →
        Root.getMD cfg r dh2 = (.error err, r1) →
        (Root.Lookup cfg (Root.Lookup cfg r name).2 (cfg.ToString dh)).1 = .error err) := by
  have h1 := Lookup_alias cfg r name dh hf hp hpub hcanon
  rw [h1]
  refine ⟨rfl, ?_, ?_, ?_, ?_⟩
  · intro p hc
    simp only
    rw [Lookup_hit cfg r _ p hc]
  · intro dh2 hp2 hc2 c hres
    simp only at hres
    have hpath := Lookup_path cfg r (cfg.ToString dh)
    generalize Root.Lookup cfg r (cfg.ToString dh) = out at hpath hres
    cases hpath with
    | hit p hf2 => cases hres
    | parseError err hf2 hp3 => cases hres
    | isPublic dh3 hf2 hp3 hpub3 => cases hres
    | redirect dh3 hf2 hp3 hpub3 hcanon3 =>
      rw [hp2] at hp3
      cases hp3
      exact hcanon3 hc2
    | getMDError dh3 err r1 hf2 hp3 hpub3 hcanon3 hmd => cases hres
    | registerError dh3 rootNode err r1 hf2 hp3 hpub3 hcanon3 hmd hreg => cases hres
    | fresh dh3 rootNode r1 hf2 hp3 hpub3 hcanon3 hmd hreg => cases hres
  · intro dh2 rootNode r1 hf2 hp2 hpub2 hc2 hmd hreg
    simp only
    rw [Lookup_fresh cfg r _ dh2 rootNode r1 hf2 hp2 hpub2 hc2 hmd hreg]
    have hs := getMD_state cfg r dh2
    rw [hmd] at hs
    simp only at hs
    rw [hs]
  · intro dh2 err r1 hf2 hp2 hpub2 hc2 hmd
    simp only
    rw [Lookup_getMD_error cfg r _ dh2 err r1 hf2 hp2 hpub2 hc2 hmd]

/-- Witness of the amended C2 on the sample mount, at `bob,alice`. -/
theorem Lookup_alias_redirect_witness :
    (FS.Root 0 : Root SampleHandle Nat).folders "bob,alice" = none ∧
      sampleConfig.ParseTlfHandle "bob,alice" = .ok ⟨"alice,bob", false, true⟩ ∧
      Root.Lookup sampleConfig (FS.Root 0) "bob,alice" = (.ok (.alias "alice,bob"), FS.Root 0) ∧
      (Root.Lookup sampleConfig (Root.Lookup sampleConfig (FS.Root 0) "bob,alice").2
        "alice,bob").1 = .ok (.dir 0) :=
  ⟨rfl, rfl,
    (Lookup_alias_redirect sampleConfig (FS.Root 0) "bob,alice" ⟨"alice,bob", false, true⟩
      rfl rfl rfl (by decide)).1,
    (Lookup_alias_redirect sampleConfig (FS.Root 0) "bob,alice" ⟨"alice,bob", false, true⟩
      rfl rfl rfl (by decide)).2.2.2.1 ⟨"alice,bob", false, true⟩ none
        (Root.getMD sampleConfig (FS.Root 0) ⟨"alice,bob", false, true⟩).2
        rfl rfl rfl rfl rfl rfl⟩

/-- C3 (public fallback). For an uncached canonical name whose handle has a
public subdirectory (and is not itself public, which is what lets `Lookup`
reach the backend), if `GetOrCreateRootNodeForHandle` fails with a
`ReadAccessError` and the registration for changes succeeds, then `getMD`
returns `(nil, nil)` and `Lookup` succeeds with a new `Dir` that has a nil
root node and `hasPublic = true`; that wrapper is cached under the name. -/
theorem Lookup_public_fallback (cfg : Config H B) (r : Root H B) (name : String) (dh : H)
    (err : Error)
    (hf : r.folders name = none) (hp : cfg.ParseTlfHandle name = .ok dh)
    (hpub : cfg.IsPublic dh = false) (hcanon : cfg.ToString dh = name)
    (hhas : cfg.HasPublic dh = true)
    (hget : (cfg.GetOrCreateRootNodeForHandle r.backend dh MasterBranch).1 = .error err)
    (hrae : err.isReadAccessError = true)
    (hreg : (cfg.RegisterForChanges
      (cfg.GetOrCreateRootNodeForHandle r.backend dh MasterBranch).2
      [{ Tlf := NullTlfID, Branch := MasterBranch }] r.folderObjs.length).1 = none) :
    (Root.getMD cfg r dh).1 = .ok none ∧
      (Root.Lookup cfg r name).1 = .ok (.dir r.dirObjs.length) ∧
      (Root.Lookup cfg r name).2.dirObjs = r.dirObjs ++
        [{ folder := r.folderObjs.length, node := none, hasPublic := true }] ∧
      (Root.Lookup cfg r name).2.folders name = some r.dirObjs.length := by
  have hres := getMD_result cfg r dh
  rw [hget] at hres
  simp only [hrae, hhas, Bool.and_self, ite_true] at hres
  have hs := getMD_state cfg r dh
  have hmd : Root.getMD cfg r dh = (.ok none, (Root.getMD cfg r dh).2) := by
    rw [← hres]
  have hreg2 : (cfg.RegisterForChanges (Root.getMD cfg r dh).2.backend [folderBranchOf none]
      (Root.getMD cfg r dh).2.folderObjs.length).1 = none := by
    rw [hs]
    exact hreg
  rw [Lookup_fresh cfg r name dh none _ hf hp hpub hcanon hmd hreg2]
  refine ⟨hres, ?_, ?_, ?_⟩
  · rw [hs]
  · simp [Root.afterFresh, hs, hhas]
  · simp [Root.afterFresh, hs]

/-- Witness of C3 on the sample mount, at `alice,bob`. -/
theorem Lookup_public_fallback_witness :
    (Root.getMD sampleConfig (FS.Root 0) ⟨"alice,bob", false, true⟩).1 = .ok none ∧
      (Root.Lookup sampleConfig (FS.Root 0) "alice,bob").1 = .ok (.dir 0) ∧
      (Root.Lookup sampleConfig (FS.Root 0) "alice,bob").2.dirObjs =
        [{ folder := 0, node := none, hasPublic := true }] ∧
      (Root.Lookup sampleConfig (FS.Root 0) "alice,bob").2.folders "alice,bob" = some 0 :=
  Lookup_public_fallback sampleConfig (FS.Root 0) "alice,bob" ⟨"alice,bob", false, true⟩
    (.ReadAccessError "denied") rfl rfl rfl rfl rfl rfl rfl rfl

/-- C5 (backend errors pass through). When `GetOrCreateRootNodeForHandle`
returns the error `err` for the handle `dh`, unless `err` is a
`ReadAccessError` and `dh` has a public subdirectory, `getMD` returns
`(nil, err)`, and `Lookup` of an uncached canonical name with that handle (a
handle that is not public, which is what lets `Lookup` reach the backend)
returns `(nil, err)` with the same error. -/
theorem getMD_error_passthrough (cfg : Config H B) (r : Root H B) (dh : H) (err : Error)
    (hget : (cfg.GetOrCreateRootNodeForHandle r.backend dh MasterBranch).1 = .error err)
    (hnot : ¬ (err.isReadAccessError = true ∧ cfg.HasPublic dh = true)) :
    (Root.getMD cfg r dh).1 = .error err ∧
      (∀ name, r.folders name = none → cfg.ParseTlfHandle name = .ok dh →
        cfg.IsPublic dh = false → cfg.ToString dh = name →
        (Root.Lookup cfg r name).1 = .error err) := by
  have hres := getMD_result cfg r dh
  rw [hget] at hres
  have hc : (err.isReadAccessError && cfg.HasPublic dh) = false := by
    cases h1 : err.isReadAccessError <;> cases h2 : cfg.HasPublic dh <;> simp_all
  simp only [hc, Bool.false_eq_true, ite_false] at hres
  refine ⟨hres, ?_⟩
  intro name hf hp hpub hcanon
  have hmd : Root.getMD cfg r dh = (.error err, (Root.getMD cfg r dh).2) := by
    rw [← hres]
  rw [Lookup_getMD_error cfg r name dh err _ hf hp hpub hcanon hmd]

/-- Witness of C5 on the sample mount: `frank` is unreadable and has no public
subdirectory, so the `ReadAccessError` is surfaced. -/
theorem getMD_error_passthrough_witness :
    (Root.getMD sampleConfig (FS.Root 0) ⟨"frank", false, false⟩).1
        = .error (.ReadAccessError "denied") ∧
      (Root.Lookup sampleConfig (FS.Root 0) "frank").1 = .error (.ReadAccessError "denied") :=
  ⟨(getMD_error_passthrough sampleConfig (FS.Root 0) ⟨"frank", false, false⟩
      (.ReadAccessError "denied") rfl (by decide)).1,
    (getMD_error_passthrough sampleConfig (FS.Root 0) ⟨"frank", false, false⟩
      (.ReadAccessError "denied") rfl (by decide)).2 "frank" rfl rfl rfl rfl⟩

/-- C8 (post-state of a fresh resolution). For an uncached, canonical name
whose handle is not public, when `getMD` returns `rootNode` without error and
`RegisterForChanges` succeeds, `Lookup` returns a new `Dir` and:
exactly one `Folder` is allocated and exactly one `RegisterForChanges` call is
made, for that folder and on one `FolderBranch`; with a root node, the folder's
id and the registered branch are the node's `GetFolderBranch()` and the
folder's node map is exactly `GetID() -> wrapper`; without one, the id is
`NullTlfID`, the branch is `(NullTlfID, MasterBranch)` and the node map is
empty; `r.folders` is the old map with the name set to the wrapper; and the
wrapper refers to the folder and the root node and has `hasPublic` equal to
`dh.HasPublic()`. -/
theorem Lookup_fresh_post (cfg : Config H B) (r : Root H B) (name : String) (dh : H)
    (rootNode : Option Node) (r1 : Root H B)
    (hf : r.folders name = none) (hp : cfg.ParseTlfHandle name = .ok dh)
    (hpub : cfg.IsPublic dh = false) (hcanon : cfg.ToString dh = name)
    (hmd : Root.getMD cfg r dh = (.ok rootNode, r1))
    (hreg : (cfg.RegisterForChanges r1.backend [folderBranchOf rootNode]
      r1.folderObjs.length).1 = none) :
    (Root.Lookup cfg r name).1 = .ok (.dir r.dirObjs.length) ∧
      (∀ n, rootNode = some n →
        (Root.Lookup cfg r name).2.folderObjs = r.folderObjs ++
          [{ id := n.GetFolderBranch.Tlf, dh := dh,
             nodes := Function.update (fun _ => none) n.GetID (some r.dirObjs.length) }] ∧
        (Root.Lookup cfg r name).2.calls = r.calls ++
          [Call.GetOrCreateRootNodeForHandle dh MasterBranch,
           Call.RegisterForChanges [n.GetFolderBranch] r.folderObjs.length]) ∧
      (rootNode = none →
        (Root.Lookup cfg r name).2.folderObjs = r.folderObjs ++
          [{ id := NullTlfID, dh := dh, nodes := fun _ => none }] ∧
        (Root.Lookup cfg r name).2.calls = r.calls ++
          [Call.GetOrCreateRootNodeForHandle dh MasterBranch,
           Call.RegisterForChanges [{ Tlf := NullTlfID, Branch := MasterBranch }]
             r.folderObjs.length]) ∧
      (Root.Lookup cfg r name).2.folders = Function.update r.folders name (some r.dirObjs.length) ∧
      (Root.Lookup cfg r name).2.dirObjs = r.dirObjs ++
        [{ folder := r.folderObjs.length, node := rootNode, hasPublic := cfg.HasPublic dh }] := by
  rw [Lookup_fresh cfg r name dh rootNode r1 hf hp hpub hcanon hmd hreg]
  have hs := getMD_state cfg r dh
  rw [hmd] at hs
  simp only at hs
  subst hs
  refine ⟨rfl, ?_, ?_, rfl, rfl⟩
  · intro n hn
    subst hn
    simp [Root.afterFresh, freshFolder, folderBranchOf]
  · intro hn
    subst hn
    simp [Root.afterFresh, freshFolder, folderBranchOf]

/-- Witness of C8 on the sample mount, at `carol` (a root node is returned). -/
theorem Lookup_fresh_post_witness :
    (Root.Lookup sampleConfig (FS.Root 0) "carol").1 = .ok (.dir 0) ∧
      (Root.Lookup sampleConfig (FS.Root 0) "carol").2.folders "carol" = some 0 ∧
      (Root.Lookup sampleConfig (FS.Root 0) "carol").2.dirObjs =
        [{ folder := 0, node := some ⟨7, ⟨4, MasterBranch⟩⟩, hasPublic := true }] :=
  have h := Lookup_fresh_post sampleConfig (FS.Root 0) "carol" ⟨"carol", false, true⟩
    (some ⟨7, ⟨4, MasterBranch⟩⟩)
    (Root.getMD sampleConfig (FS.Root 0) ⟨"carol", false, true⟩).2 rfl rfl rfl rfl rfl rfl
  ⟨h.1, by rw [h.2.2.2.1]; rfl, h.2.2.2.2⟩

/-- C9 (the name cache never evicts and grows only by a fresh resolution).
For every state and name: every entry of `r.folders` before `Lookup` is there
afterwards with the same wrapper; on a cache hit, on an alias and on every
error the map is unchanged; and when an uncached name resolves to a wrapper
the map is the old one with the requested name set to that wrapper, every
other key being as before. -/
theorem Lookup_folders_frame (cfg : Config H B) (r : Root H B) (name : String) :
    (∀ k p, r.folders k = some p → (Root.Lookup cfg r name).2.folders k = some p) ∧
      ((∃ p, r.folders name = some p) → (Root.Lookup cfg r name).2.folders = r.folders) ∧
      (∀ c, (Root.Lookup cfg r name).1 = .ok (.alias c) →
        (Root.Lookup cfg r name).2.folders = r.folders) ∧
      (∀ err, (Root.Lookup cfg r name).1 = .error err →
        (Root.Lookup cfg r name).2.folders = r.folders) ∧
      (∀ p, r.folders name = none → (Root.Lookup cfg r name).1 = .ok (.dir p) →
        (Root.Lookup cfg r name).2.folders = Function.update r.folders name (some p) ∧
        ∀ k, k ≠ name → (Root.Lookup cfg r name).2.folders k = r.folders k) := by
  have hpath := Lookup_path cfg r name
  generalize Root.Lookup cfg r name = out at hpath
  cases hpath with
  | hit q hf =>
    refine ⟨fun k p h => h, fun _ => rfl, fun _ _ => rfl, fun _ _ => rfl, ?_⟩
    intro p hn
    rw [hf] at hn
    cases hn
  | parseError err hf hp =>
    exact ⟨fun k p h => h, fun _ => rfl, fun _ _ => rfl, fun _ _ => rfl,
      fun p _ h => by cases h⟩
  | isPublic dh hf hp hpub =>
    exact ⟨fun k p h => h, fun _ => rfl, fun _ _ => rfl, fun _ _ => rfl,
      fun p _ h => by cases h⟩
  | redirect dh hf hp hpub hcanon =>
    exact ⟨fun k p h => h, fun _ => rfl, fun _ _ => rfl, fun _ _ => rfl,
      fun p _ h => by cases h⟩
  | getMDError dh err r1 hf hp hpub hcanon hmd =>
    have h1 : r1.folders = r.folders := getMD_folders cfg r dh _ r1 hmd
    exact ⟨fun k p h => by simpa [h1] using h, fun _ => h1, fun _ _ => h1, fun _ _ => h1,
      fun p _ h => by cases h⟩
  | registerError dh rootNode err r1 hf hp hpub hcanon hmd hreg =>
    have h1 : (Root.afterRegister cfg r1 dh rootNode).folders = r.folders :=
      getMD_folders cfg r dh _ r1 hmd
    exact ⟨fun k p h => by simpa [h1] using h, fun _ => h1, fun _ _ => h1, fun _ _ => h1,
      fun p _ h => by cases h⟩
  | fresh dh rootNode r1 hf hp hpub hcanon hmd hreg =>
    have h1 : r1.folders = r.folders := getMD_folders cfg r dh _ r1 hmd
    have h2 : (Root.afterFresh cfg r1 name dh rootNode).folders
        = Function.update r.folders name (some r1.dirObjs.length) := by
      simp [Root.afterFresh, h1]
    refine ⟨?_, ?_, ?_, ?_, ?_⟩
    · intro k p h
      have hk : k ≠ name := by
        rintro rfl
        rw [hf] at h
        cases h
      simp only [h2, Function.update_noteq hk, h]
    · rintro ⟨p, hp2⟩
      rw [hf] at hp2
      cases hp2
    · intro c h
      cases h
    · intro err h
      cases h
    · intro p _ h
      simp only [Except.ok.injEq, FsNode.dir.injEq] at h
      subst h
      refine ⟨h2, ?_⟩
      intro k hk
      simp only [h2, Function.update_noteq hk]

/-- C10 (the keys of the name cache are canonical). Starting from the empty
map of `FS.Root`, after any sequence of `Lookup` calls, every key of
`r.folders` is a name that parses, whose handle is not public and whose
canonical string is the key itself; so a name whose handle is public or whose
canonical string differs from it (one that `Lookup` answers with `ENOENT` or
an alias) is never in the cache. The parser and `ToString` are functions of
their arguments. -/
theorem Lookups_keys_canonical (cfg : Config H B) (b : B) (names : List String) :
    (∀ k p, (Root.Lookups cfg (FS.Root b) names).folders k = some p →
      ∃ dh, cfg.ParseTlfHandle k = .ok dh ∧ cfg.IsPublic dh = false ∧ cfg.ToString dh = k) ∧
      (∀ k dh, cfg.ParseTlfHandle k = .ok dh →
        (cfg.IsPublic dh = true ∨ cfg.ToString dh ≠ k) →
        (Root.Lookups cfg (FS.Root b) names).folders k = none) := by
  have key : ∀ k p, (Root.Lookups cfg (FS.Root b) names).folders k = some p →
      CanonicalKey cfg k :=
    Lookups_keys cfg names (FS.Root b) (fun k p h => by simp [FS.Root] at h)
  refine ⟨key, ?_⟩
  intro k dh hp hor
  cases hk : (Root.Lookups cfg (FS.Root b) names).folders k with
  | none => rfl
  | some p =>
    obtain ⟨dh2, hp2, hpub2, hc2⟩ := key k p hk
    rw [hp] at hp2
    cases hp2
    rcases hor with h | h
    · rw [hpub2] at h
      cases h
    · exact absurd hc2 h

end LookupClaims

/-! ## The properties of `Root.ReadDirAll` -/

section ReadDirClaims

variable {H B : Type}

/-- C6 (enumeration fail-fast) fails on the sample mount. The favorites are
1, 2 and 3 and `GetRootNode` fails for 3 in every state of the backend; under
`sampleSchedule` the error of worker 0 is in `errCh` and `results` is closed
when the collector runs its `select`, the collector takes the case of
`results`, and `ReadDirAll` returns the two entries of the other favorites
with a nil error. Had the `select` taken the case of `errCh` in the same
state, `ReadDirAll` would have returned the error and a nil list. -/
theorem ReadDirAll_incomplete_listing :
    (sampleConfig.GetFavDirs 0).1 = .ok [1, 2, 3] ∧
      (∀ b, (sampleConfig.GetRootNode b { Tlf := 3, Branch := MasterBranch }).1
        = .error (.other 5)) ∧
      ((Root.ReadDirAll sampleConfig 0).run sampleConfig sampleSchedule).map ReadDir.result
        = some (some ([{ Typ := .DT_Dir, Name := "alice,bob" },
                       { Typ := .DT_Dir, Name := "carol" }], none)) ∧
      ((Root.ReadDirAll sampleConfig 0).run sampleConfig
          (sampleSchedule.dropLast ++ [.recvErr])).map ReadDir.result
        = some (some ([], some (.other 5))) :=
  ⟨rfl, fun _ => rfl, rfl, rfl⟩

/-- C7 (root listing membership). Let `GetFavDirs` return the favorites `F`
and let `GetRootNode` succeed for every favorite, in every state of the
backend, with a handle whose canonical name is `cname id`. Then along every
schedule of the goroutines in which the caller's context is not cancelled:
if `ReadDirAll` has returned, it has returned a nil error and a permutation of
the entries `Dirent{Type: DT_Dir, Name: cname id}` for `id` in `F` (one entry
per favorite, in any order); if it has not returned, some goroutine can take a
step; and the schedule has at most `3 * len(F) + 23` steps. So every such
schedule, continued as long as a step is possible, makes `ReadDirAll` return
that listing. -/
theorem ReadDirAll_membership (cfg : Config H B) (b : B) (F : List TlfID)
    (cname : TlfID → String)
    (hfav : (cfg.GetFavDirs b).1 = .ok F)
    (hroot : ∀ b, ∀ id ∈ F, ∃ dh,
      (cfg.GetRootNode b { Tlf := id, Branch := MasterBranch }).1 = .ok dh ∧
      cfg.ToString dh = cname id)
    (acts : List Action) (hno : ∀ a ∈ acts, a.isParentDone = false)
    (s : ReadDir B) (hrun : (Root.ReadDirAll cfg b).run cfg acts = some s) :
    (∀ res err, s.result = some (res, err) →
      err = none ∧
      List.Perm res (F.map (fun id => { Typ := .DT_Dir, Name := cname id }))) ∧
      (s.result = none → ∃ a, a.isParentDone = false ∧ (s.step cfg a).isSome = true) ∧
      acts.length ≤ 3 * F.length + 23 := by
  have hg : Good F cname s :=
    run_Good cfg F cname hroot acts _ s hno hrun (Good_start cfg F cname b hfav)
  refine ⟨?_, Good_progress cfg F cname s hg, ?_⟩
  · intro res err hres
    cases hm : s.main with
    | collecting res2 => simp [ReadDir.result, hm] at hres
    | returned res2 err2 =>
      simp only [ReadDir.result, hm, Option.some.injEq, Prod.mk.injEq] at hres
      obtain ⟨h1, h2⟩ := hres
      subst h1
      subst h2
      exact (Good_returned F cname s _ _ hm).1 hg
  · have hlen := run_length cfg acts _ s hno hrun
    have hw : (Root.ReadDirAll cfg b).weight = 3 * F.length + 23 := by
      unfold Root.ReadDirAll
      rcases hgf : cfg.GetFavDirs b with ⟨r, b1⟩
      rw [hgf] at hfav
      simp only at hfav
      subst hfav
      simp [ReadDir.weight, Feeder.weight, Collector.weight, workers, Worker.weight]
    omega

/-- Witness of C7 on the sample mount, once favorite 3 is gone: under
`sampleSchedule2` the listing has the entry of `carol` before the entry of
`alice,bob`, a permutation of the entries of the favorites 1 and 2. -/
theorem ReadDirAll_membership_witness :
    ((Root.ReadDirAll sampleConfig 10).run sampleConfig sampleSchedule2).map ReadDir.result
        = some (some ([{ Typ := .DT_Dir, Name := "carol" },
                       { Typ := .DT_Dir, Name := "alice,bob" }], none)) ∧
      List.Perm [{ Typ := .DT_Dir, Name := "carol" }, { Typ := .DT_Dir, Name := "alice,bob" }]
        ([1, 2].map (fun id =>
          ({ Typ := .DT_Dir, Name := if id = 1 then "alice,bob" else "carol" } : Dirent))) :=
  ⟨rfl,
    ((ReadDirAll_membership sampleConfig 10 [1, 2]
      (fun id => if id = 1 then "alice,bob" else "carol") rfl
      (by
        intro b id hid
        simp only [List.mem_cons, List.mem_singleton, List.not_mem_nil, or_false] at hid
        rcases hid with rfl | rfl
        · exact ⟨⟨"alice,bob", false, true⟩, rfl, rfl⟩
        · exact ⟨⟨"carol", false, true⟩, rfl, rfl⟩)
      sampleSchedule2 (by decide)
      { backend := 13, feeder := .finished, pool := List.replicate 10 .done, errCh := none,
        ctxErr := some .Canceled,
        main := .returned [{ Typ := .DT_Dir, Name := "carol" },
                           { Typ := .DT_Dir, Name := "alice,bob" }] none }
      rfl).1 _ _ rfl).2⟩

end ReadDirClaims

end Kbfsfuse
